import Mathlib

/-!
Verification development for the PingFL fault-localization system.

The Python sources are shallowly embedded: each Lean definition mirrors one
Python function or dataclass.  Python strings are modelled as `List Char`
(called `PyStr` below), with the handful of `str` methods the code uses
(`splitlines`, `join`, `split`, `replace`, `count`, `in`, slicing)
reimplemented with Python semantics.  Machine integers are `Nat`/`Int`
(Python ints are unbounded, so no wraparound is needed).  Fallible Python
code (raised exceptions) is modelled with `Except`/`Option`.
-/

namespace PingFL

/-- Python strings, modelled as character lists for easy kernel evaluation. -/
abbrev PyStr := List Char

/-- Convert a Lean string literal to the `PyStr` model. -/
def strL (s : String) : PyStr := s.toList

/-- Convert a `PyStr` back to a Lean string. -/
def strOf (l : PyStr) : String := String.mk l

/-- Helper for `pySplitlines`: accumulate the current (reversed) line. -/
def pySplitlinesGo (cur : PyStr) : PyStr → List PyStr
  | [] => if cur.isEmpty then [] else [cur.reverse]
  | c :: rest =>
    if c = '\n' then cur.reverse :: pySplitlinesGo [] rest
    else pySplitlinesGo (c :: cur) rest

/-- Python `str.splitlines()` restricted to `\n` separators (the only line
separator occurring in the modelled code): no trailing empty line for a
trailing newline, and `""` gives `[]`. -/
def pySplitlines (s : PyStr) : List PyStr := pySplitlinesGo [] s

/-- Python `sep.join(xs)`. -/
def pyIntercalate (sep : PyStr) : List PyStr → PyStr
  | [] => []
  | [x] => x
  | x :: y :: rest => x ++ sep ++ pyIntercalate sep (y :: rest)

/-- `"\n".join(xs)`. -/
def pyJoinNL (xs : List PyStr) : PyStr := pyIntercalate ['\n'] xs

/-- Find the first occurrence of `pat` in a string, returning the text before
and after it (Python `s.find` plus slicing).  The empty pattern matches at
position 0, as in Python. -/
def pyFindSplit (pat : PyStr) : PyStr → Option (PyStr × PyStr)
  | [] => if pat.isEmpty then some ([], []) else none
  | c :: rest =>
    if pat.isPrefixOf (c :: rest) then some ([], (c :: rest).drop pat.length)
    else
      match pyFindSplit pat rest with
      | some (pre, post) => some (c :: pre, post)
      | none => none

/-- Python `pat in s` (substring containment). -/
def pyContains (s pat : PyStr) : Bool := (pyFindSplit pat s).isSome

/-- Fuel-driven worker for `pyReplace`; the fuel `s.length + 1` always
suffices because every replacement consumes at least one character. -/
def pyReplaceF : Nat → PyStr → PyStr → PyStr → PyStr
  | 0, _, _, s => s
  | fuel + 1, pat, rep, s =>
    match pyFindSplit pat s with
    | none => s
    | some (pre, post) => pre ++ rep ++ pyReplaceF fuel pat rep post

/-- Python `s.replace(pat, rep)`: all non-overlapping occurrences, scanned
left to right.  For the empty pattern Python interleaves `rep` around every
character. -/
def pyReplace (s pat rep : PyStr) : PyStr :=
  if pat.isEmpty then rep ++ s.foldr (fun c acc => c :: rep ++ acc) []
  else pyReplaceF (s.length + 1) pat rep s

/-- Fuel-driven worker for `pyCount`. -/
def pyCountF : Nat → PyStr → PyStr → Nat
  | 0, _, _ => 0
  | fuel + 1, pat, s =>
    match pyFindSplit pat s with
    | none => 0
    | some (_, post) => 1 + pyCountF fuel pat post

/-- Python `s.count(pat)` (non-overlapping occurrences; `s.count("") = len+1`). -/
def pyCount (s pat : PyStr) : Nat :=
  if pat.isEmpty then s.length + 1 else pyCountF (s.length + 1) pat s

/-- Python `s.split(c)` for a single-character separator: never empty,
`""` gives `[""]`. -/
def pySplitChar (c : Char) : PyStr → List PyStr
  | [] => [[]]
  | d :: rest =>
    if d = c then [] :: pySplitChar c rest
    else
      match pySplitChar c rest with
      | x :: xs => (d :: x) :: xs
      | [] => [[d]]

/-- Python slice `l[a:b]` with `Int` endpoints (negative indices count from
the end, out-of-range indices are clamped). -/
def pySliceI (a b : Int) (l : List α) : List α :=
  let n : Int := l.length
  let norm : Int → Nat := fun i => (if i < 0 then max (n + i) 0 else min i n).toNat
  (l.take (norm b)).drop (norm a)

/-- Python slice `l[a:b]` with nonnegative endpoints. -/
def pySliceN (a b : Nat) (l : List α) : List α := (l.take b).drop a

/-- Python negative indexing `l[-k]` (`k ≥ 1`), `none` models `IndexError`. -/
def pyNegIdx (l : List α) (k : Nat) : Option α :=
  if k ≤ l.length then l.get? (l.length - k) else none

/-!
## Debugging orchestrator round state (src/core/debug_agent.py)

`DebugState` carries the per-test-case round bookkeeping.  `update_round`
is the round-resolution step executed after each search+verify round.
-/

/-- `src.schema.SearchResult` (dataclass fields in declaration order). -/
structure SearchResult where
  debug_report : String
  error_analysis : String
  method_id : String
deriving DecidableEq

/-- `src.schema.VerifyResult`. -/
structure VerifyResult where
  method_id : String
  category : String
  explanation : String
deriving DecidableEq

/-- `src.schema.RoundResult`. -/
structure RoundResult where
  search_results : List SearchResult
  verify_results : List VerifyResult
deriving DecidableEq

/-- `DebugState` (src/core/debug_agent.py): the fields referenced by
`update_round` / `current_round_result`; the identification fields
(`bug_name`, `input`) are irrelevant to round resolution and omitted. -/
structure DebugState where
  round_results : List RoundResult
  parallel_search : Bool
  completed : Bool
  found_bug : Bool
  current_round : Nat
  max_rounds : Nat
deriving DecidableEq

/-- `DebugState.current_round_result`: `round_results[current_round - 1]`,
with the `IndexError` handler returning `None`.  (`current_round` starts at
1 and only increments, so the `Nat` subtraction is exact.) -/
def currentRoundResult (s : DebugState) : Option RoundResult :=
  s.round_results.get? (s.current_round - 1)

/-- `DebugState.update_round`: increments `current_round`, marks the state
completed past `max_rounds`, and then — in the non-parallel branch — reads
`self.current_round_result.verify_results`.  When `current_round_result`
is `None` the attribute access raises `AttributeError`, modelled as
`Except.error`. -/
def updateRound (s : DebugState) : Except String DebugState :=
  let s1 := { s with current_round := s.current_round + 1 }
  let s2 := if s1.current_round > s1.max_rounds then { s1 with completed := true } else s1
  if s2.parallel_search then Except.ok s2
  else
    match currentRoundResult s2 with
    | none => Except.error "AttributeError: NoneType object has no attribute verify_results"
    | some rr =>
      Except.ok (rr.verify_results.foldl
        (fun st r =>
          if r.category = "buggy" then { st with completed := true, found_bug := true }
          else st)
        s2)

/-- C1: in the non-parallel mode, whenever `round_results` holds exactly one
entry per completed round (the invariant the driver loop maintains:
`add_search_results` appends once per round before `update_round` runs),
`update_round` always raises: the increment happens before
`current_round_result` is read, so the read indexes one past the end. -/
theorem updateRound_raises_on_round_resolution
    (s : DebugState) (hp : s.parallel_search = false)
    (hl : s.round_results.length = s.current_round) :
    updateRound s =
      Except.error "AttributeError: NoneType object has no attribute verify_results" := by
  unfold updateRound currentRoundResult
  have hnone : s.round_results.get? (s.current_round + 1 - 1) = none := by
    have h1 : s.current_round + 1 - 1 = s.current_round := by omega
    rw [h1]
    exact List.get?_eq_none.mpr (by omega)
  by_cases hgt : s.current_round + 1 > s.max_rounds
  · simp only [hgt, if_true, hp, Bool.false_eq_true, if_false, hnone]
  · simp only [hgt, if_false, hp, Bool.false_eq_true, hnone]

/-- Witness: a concrete first-round state whose single verify result is
`buggy`; the claim expects `completed = true`, `found_bug = true`, but the
code raises instead. -/
theorem updateRound_raises_witness :
    updateRound
      { round_results := [{ search_results := [],
                            verify_results := [{ method_id := "m", category := "buggy",
                                                 explanation := "e" }] }],
        parallel_search := false, completed := false, found_bug := false,
        current_round := 1, max_rounds := 3 } =
      Except.error "AttributeError: NoneType object has no attribute verify_results" :=
  updateRound_raises_on_round_resolution _ rfl rfl

/-!
## Code elements (src/schema.py)

`Tag` is the dataclass representing one parsed code element.  The optional
string fields that Python defaults to `None` but that are always populated
for the function tags exercised here (`pkg_name`, `parent_class`,
`outer_class`) are modelled as `String`; `inner_class` keeps its `Option`
because its absence (`None`) drives the `if self.inner_class:` truthiness
tests and the dynamic-match updates.
-/

/-- `src.schema.Tag`, all dataclass fields in declaration order.  The
`@dataclass`-generated `__eq__` compares every field, which is exactly
structure equality on this type. -/
structure Tag where
  rel_fname : String
  fname : String
  line : Nat × Nat
  name : String
  kind : String
  category : String
  code : String
  pkg_name : String
  parent_class : String
  interfaces : List String
  is_test : Bool
  outer_class : String
  inner_class : Option String
  is_covered : Bool
deriving DecidableEq

/-- The tuple fed to `hash(...)` by `Tag.__hash__`:
`(rel_fname, line, name, kind, category)`. -/
def tagHashKey (t : Tag) : String × (Nat × Nat) × String × String × String :=
  (t.rel_fname, t.line, t.name, t.kind, t.category)

/-- Agreement on the five fields the spec calls the structural identity
(file, line range, name, kind, category). -/
def fiveFieldsAgree (t1 t2 : Tag) : Prop :=
  t1.rel_fname = t2.rel_fname ∧ t1.line = t2.line ∧ t1.name = t2.name ∧
    t1.kind = t2.kind ∧ t1.category = t2.category

instance : DecidablePred (fun p : Tag × Tag => fiveFieldsAgree p.1 p.2) := by
  intro p
  unfold fiveFieldsAgree
  infer_instance

/-- Python `self.inner_class.replace("$", ".")` (single-character pattern,
hence a plain character map). -/
def dollarToDot (s : String) : String :=
  strOf ((strL s).map (fun c => if c = '$' then '.' else c))

/-- `Tag.method_id`: `None` for non-function categories; otherwise
`{pkg}.{outer}[.{inner with $ replaced by .}].{name}#{start}-{end}`,
where the inner-class chain is included only when `inner_class` is truthy
(neither `None` nor the empty string). -/
def methodId (t : Tag) : Option String :=
  if t.category = "function" then
    match t.inner_class with
    | some ic =>
      if ic = "" then
        some (t.pkg_name ++ "." ++ t.outer_class ++ "." ++ t.name ++ "#" ++
          toString t.line.1 ++ "-" ++ toString t.line.2)
      else
        some (t.pkg_name ++ "." ++ t.outer_class ++ "." ++ dollarToDot ic ++ "." ++ t.name ++
          "#" ++ toString t.line.1 ++ "-" ++ toString t.line.2)
    | none =>
      some (t.pkg_name ++ "." ++ t.outer_class ++ "." ++ t.name ++ "#" ++
        toString t.line.1 ++ "-" ++ toString t.line.2)
  else none

/-- A concrete function tag (used as a witness/counterexample input). -/
def covTagA : Tag :=
  { rel_fname := "A.java", fname := "/repo/A.java", line := (1, 2), name := "m",
    kind := "def", category := "function", code := "void m()", pkg_name := "p",
    parent_class := "", interfaces := [], is_test := false, outer_class := "A",
    inner_class := none, is_covered := false }

/-- `covTagA` after dynamic matching marked it covered: identical on the five
identity fields, different on `is_covered`. -/
def covTagB : Tag := { covTagA with is_covered := true }

/-- An overload of `covTagA` on a different line range (a distinct element
of the same graph). -/
def covTagC : Tag := { covTagA with line := (3, 4) }

/-- C6 counterexample: two `Tag` values agreeing on all five identity
fields (file, line range, name, kind, category) that are nevertheless not
equal, because the dataclass-generated `__eq__` compares every field and
the two differ on `is_covered`. -/
theorem tag_five_field_eq_counterexample :
    fiveFieldsAgree covTagA covTagB ∧ covTagA ≠ covTagB := by
  constructor
  · exact ⟨rfl, rfl, rfl, rfl, rfl⟩
  · decide

/-- C6 amended: the hash key is computed from exactly the five identity
fields, so five-field agreement forces equal hash keys and equal tags agree
on the five fields; but five-field agreement does not imply equality (the
dataclass equality compares all fields — see the counterexample). -/
theorem tag_hash_eq_consistency :
    (∀ t1 t2 : Tag, fiveFieldsAgree t1 t2 → tagHashKey t1 = tagHashKey t2) ∧
    (∀ t1 t2 : Tag, t1 = t2 → fiveFieldsAgree t1 t2) := by
  constructor
  · intro t1 t2 h
    obtain ⟨h1, h2, h3, h4, h5⟩ := h
    unfold tagHashKey
    rw [h1, h2, h3, h4, h5]
  · intro t1 t2 h
    subst h
    exact ⟨rfl, rfl, rfl, rfl, rfl⟩

/-- Witness for `tag_hash_eq_consistency` at concrete tags. -/
theorem tag_hash_eq_consistency_witness :
    tagHashKey covTagA = tagHashKey covTagB ∧ fiveFieldsAgree covTagA covTagA :=
  ⟨tag_hash_eq_consistency.1 covTagA covTagB ⟨rfl, rfl, rfl, rfl, rfl⟩,
   tag_hash_eq_consistency.2 covTagA covTagA rfl⟩

/-!
## Method-ID parsing (src/repograph/graph_searcher.py, NewRepoSearcher)

`get_possible_method_ids` recovers components from an oracle-supplied
method-ID string with `false_id.split(".")[-2]` (class name) and
`false_id.split(".")[-1].split("#")[0]` (method name).
-/

/-- `false_id.split(".")[-2]` — `none` models the `IndexError` when the id
has fewer than two dot-separated parts. -/
def parseFalseIdClass (id : String) : Option String :=
  (pyNegIdx ((strL id).splitOn '.') 2).map strOf

/-- `false_id.split(".")[-1].split("#")[0]`. -/
def parseFalseIdMethod (id : String) : Option String :=
  (pyNegIdx ((strL id).splitOn '.') 1).map (fun last => strOf (last.splitOn '#').headI)

/-- The innermost class-name segment of a function tag: the last
dot-separated segment of the rendered inner-class chain when the chain is
truthy, else the outer class. -/
def leafClassName (t : Tag) : String :=
  match t.inner_class with
  | some ic =>
    if ic = "" then t.outer_class
    else strOf ((strL (dollarToDot ic)).splitOn '.').getLastI
  | none => t.outer_class

/-- `modifyHead` distributes over an append with a nonempty first part. -/
theorem modifyHead_append_of_ne_nil (f : α → α) (l₁ l₂ : List α) (h : l₁ ≠ []) :
    (l₁ ++ l₂).modifyHead f = l₁.modifyHead f ++ l₂ := by
  cases l₁ with
  | nil => exact absurd rfl h
  | cons x xs => simp

/-- Splitting a list at an explicit separator occurrence concatenates the
two segment lists. -/
theorem splitOn_sep_append [DecidableEq α] (c : α) (a b : List α) :
    (a ++ c :: b).splitOn c = a.splitOn c ++ b.splitOn c := by
  induction a with
  | nil =>
    simp only [List.nil_append, List.splitOn, List.splitOnP_cons, beq_self_eq_true,
      if_true, List.splitOnP_nil]
    rfl
  | cons d rest ih =>
    simp only [List.cons_append, List.splitOn, List.splitOnP_cons] at *
    by_cases h : d = c
    · simp only [h, beq_self_eq_true, if_true]
      rw [ih]
      rfl
    · have hb : (d == c) = false := beq_false_of_ne h
      simp only [hb, Bool.false_eq_true, if_false]
      rw [ih, modifyHead_append_of_ne_nil _ _ _ (List.splitOnP_ne_nil _ _)]

/-- A list free of the separator splits into itself. -/
theorem splitOn_no_sep [DecidableEq α] {c : α} {a : List α} (h : c ∉ a) :
    a.splitOn c = [a] :=
  List.splitOnP_eq_single _ _ (fun x hx => by
    intro hb
    exact h (eq_of_beq hb ▸ hx))

/-- `l[-2]` of a list ending in two known elements. -/
theorem pyNegIdx_append_two (A : List α) (x y : α) : pyNegIdx (A ++ [x, y]) 2 = some x := by
  unfold pyNegIdx
  have hlen : (A ++ [x, y]).length = A.length + 2 := by simp
  rw [hlen]
  have h2 : 2 ≤ A.length + 2 := by omega
  rw [if_pos h2]
  have : A.length + 2 - 2 = A.length := by omega
  rw [this, List.get?_append_right (le_refl _)]
  simp

/-- `l[-1]` of a list ending in a known element. -/
theorem pyNegIdx_append_one (A : List α) (y : α) : pyNegIdx (A ++ [y]) 1 = some y := by
  unfold pyNegIdx
  have hlen : (A ++ [y]).length = A.length + 1 := by simp
  rw [hlen]
  have h1 : 1 ≤ A.length + 1 := by omega
  rw [if_pos h1]
  have : A.length + 1 - 1 = A.length := by omega
  rw [this, List.get?_append_right (le_refl _)]
  simp

/-- `strL` distributes over string append. -/
theorem strL_append (a b : String) : strL (a ++ b) = strL a ++ strL b := by
  simp [strL]

/-- C7 counterexample: the rendered Method IDs of two distinct function
elements (overloads of `m` in class `A` on different line ranges) parse to
identical components under the searcher's parser, so
`parse(render(tag))` does not recover the element's identity. -/
theorem method_id_parse_counterexample :
    methodId covTagA = some "p.A.m#1-2" ∧ methodId covTagC = some "p.A.m#3-4" ∧
    parseFalseIdClass "p.A.m#1-2" = parseFalseIdClass "p.A.m#3-4" ∧
    parseFalseIdMethod "p.A.m#1-2" = parseFalseIdMethod "p.A.m#3-4" ∧
    tagHashKey covTagA ≠ tagHashKey covTagC := by
  refine ⟨rfl, rfl, by decide, by decide, by decide⟩

/-- Dot-splitting an id of shape `P.O.T` with dot-free `O` and `T`. -/
theorem splitOn_shape_outer (P O T : PyStr) (hO : '.' ∉ O) (hT : '.' ∉ T) :
    (P ++ '.' :: (O ++ '.' :: T)).splitOn '.' = P.splitOn '.' ++ [O, T] := by
  rw [splitOn_sep_append, splitOn_sep_append, splitOn_no_sep hO, splitOn_no_sep hT]
  rfl

/-- Dot-splitting an id of shape `P.O.I.T` with dot-free `T`; the
second-to-last segment is the last segment of `I`. -/
theorem splitOn_shape_inner (P O I T : PyStr) (hT : '.' ∉ T) :
    (P ++ '.' :: (O ++ '.' :: (I ++ '.' :: T))).splitOn '.' =
      (P.splitOn '.' ++ O.splitOn '.' ++ (I.splitOn '.').dropLast) ++
        [(I.splitOn '.').getLastI, T] := by
  rw [splitOn_sep_append, splitOn_sep_append, splitOn_sep_append, splitOn_no_sep hT]
  have hne : I.splitOn '.' ≠ [] := List.splitOnP_ne_nil _ _
  have hlast : (I.splitOn '.').getLastI = (I.splitOn '.').getLast hne := by
    rw [List.getLastI_eq_getLast?, List.getLast?_eq_getLast _ hne]
  conv_lhs => rw [← List.dropLast_append_getLast hne]
  rw [hlast]
  simp [List.append_assoc]

/-- Splitting the tail `name#lines` on `#` starts with the method name. -/
theorem splitOn_hash_head (N L : PyStr) (hN : '#' ∉ N) :
    ((N ++ '#' :: L).splitOn '#').headI = N := by
  rw [splitOn_sep_append, splitOn_no_sep hN]
  rfl

/-- `strOf` is a left inverse of `strL`. -/
theorem strOf_strL (s : String) : strOf (strL s) = s := rfl

/-- C7 amended: for a function element whose outer class, name and rendered
line part are free of the separator characters (`.` in segments, `#` in the
name), the rendered Method ID has exactly the specified format, and the
searcher's parse of it recovers the leaf method name and the innermost
class-name segment — but only those components, as the counterexample
shows, so the parse result does not determine the element's identity. -/
theorem method_id_parse_leaf_components (t : Tag) (id : String)
    (hid : methodId t = some id)
    (hout : '.' ∉ strL t.outer_class)
    (hnd : '.' ∉ strL t.name)
    (hnh : '#' ∉ strL t.name)
    (hl : '.' ∉ strL (toString t.line.1 ++ "-" ++ toString t.line.2)) :
    parseFalseIdMethod id = some t.name ∧ parseFalseIdClass id = some (leafClassName t) := by
  have hlL : '.' ∉ strL (toString t.line.1) ++ '-' :: strL (toString t.line.2) := by
    simpa [strL, String.toList, String.data_append] using hl
  have hT : '.' ∉ strL t.name ++ '#' ::
      (strL (toString t.line.1) ++ '-' :: strL (toString t.line.2)) := by
    intro hmem
    rcases List.mem_append.mp hmem with h | h
    · exact hnd h
    · rcases List.mem_cons.mp h with h | h
      · exact absurd h (by decide)
      · exact hlL h
  unfold methodId at hid
  by_cases hcat : t.category = "function"
  swap
  · rw [if_neg hcat] at hid
    exact absurd hid (by simp)
  rw [if_pos hcat] at hid
  cases hic : t.inner_class with
  | none =>
    rw [hic] at hid
    have hidv := Option.some.inj hid
    subst hidv
    have hflat : strL (t.pkg_name ++ "." ++ t.outer_class ++ "." ++ t.name ++ "#" ++
        toString t.line.1 ++ "-" ++ toString t.line.2) =
        strL t.pkg_name ++ '.' :: (strL t.outer_class ++ '.' ::
          (strL t.name ++ '#' ::
            (strL (toString t.line.1) ++ '-' :: strL (toString t.line.2)))) := by
      simp only [strL, String.toList, String.data_append, List.append_assoc]
      rfl
    have hsplit := splitOn_shape_outer (strL t.pkg_name) (strL t.outer_class)
      (strL t.name ++ '#' :: (strL (toString t.line.1) ++ '-' :: strL (toString t.line.2)))
      hout hT
    constructor
    · unfold parseFalseIdMethod
      rw [hflat, hsplit, show (strL t.pkg_name).splitOn '.' ++
          [strL t.outer_class,
            strL t.name ++ '#' :: (strL (toString t.line.1) ++ '-' :: strL (toString t.line.2))] =
          ((strL t.pkg_name).splitOn '.' ++ [strL t.outer_class]) ++
          [strL t.name ++ '#' :: (strL (toString t.line.1) ++ '-' :: strL (toString t.line.2))]
        by simp, pyNegIdx_append_one]
      simp [splitOn_hash_head _ _ hnh, strOf_strL]
    · unfold parseFalseIdClass leafClassName
      rw [hflat, hsplit, pyNegIdx_append_two, hic]
      simp [strOf_strL]
  | some ic =>
    rw [hic] at hid
    have hid2 : (if ic = "" then
        some (t.pkg_name ++ "." ++ t.outer_class ++ "." ++ t.name ++ "#" ++
          toString t.line.1 ++ "-" ++ toString t.line.2)
      else
        some (t.pkg_name ++ "." ++ t.outer_class ++ "." ++ dollarToDot ic ++ "." ++ t.name ++
          "#" ++ toString t.line.1 ++ "-" ++ toString t.line.2)) = some id := hid
    by_cases hicE : ic = ""
    · rw [if_pos hicE] at hid2
      have hidv := Option.some.inj hid2
      subst hidv
      have hflat : strL (t.pkg_name ++ "." ++ t.outer_class ++ "." ++ t.name ++ "#" ++
          toString t.line.1 ++ "-" ++ toString t.line.2) =
          strL t.pkg_name ++ '.' :: (strL t.outer_class ++ '.' ::
            (strL t.name ++ '#' ::
              (strL (toString t.line.1) ++ '-' :: strL (toString t.line.2)))) := by
        simp only [strL, String.toList, String.data_append, List.append_assoc]
        rfl
      have hsplit := splitOn_shape_outer (strL t.pkg_name) (strL t.outer_class)
        (strL t.name ++ '#' :: (strL (toString t.line.1) ++ '-' :: strL (toString t.line.2)))
        hout hT
      constructor
      · unfold parseFalseIdMethod
        rw [hflat, hsplit, show (strL t.pkg_name).splitOn '.' ++
            [strL t.outer_class,
              strL t.name ++ '#' :: (strL (toString t.line.1) ++ '-' :: strL (toString t.line.2))] =
            ((strL t.pkg_name).splitOn '.' ++ [strL t.outer_class]) ++
            [strL t.name ++ '#' :: (strL (toString t.line.1) ++ '-' :: strL (toString t.line.2))]
          by simp, pyNegIdx_append_one]
        simp [splitOn_hash_head _ _ hnh, strOf_strL]
      · unfold parseFalseIdClass leafClassName
        rw [hflat, hsplit, pyNegIdx_append_two, hic]
        simp [strOf_strL, hicE]
    · rw [if_neg hicE] at hid2
      have hidv := Option.some.inj hid2
      subst hidv
      have hflat : strL (t.pkg_name ++ "." ++ t.outer_class ++ "." ++ dollarToDot ic ++ "." ++
          t.name ++ "#" ++ toString t.line.1 ++ "-" ++ toString t.line.2) =
          strL t.pkg_name ++ '.' :: (strL t.outer_class ++ '.' ::
            (strL (dollarToDot ic) ++ '.' ::
              (strL t.name ++ '#' ::
                (strL (toString t.line.1) ++ '-' :: strL (toString t.line.2))))) := by
        simp only [strL, String.toList, String.data_append, List.append_assoc]
        rfl
      have hsplit := splitOn_shape_inner (strL t.pkg_name) (strL t.outer_class)
        (strL (dollarToDot ic))
        (strL t.name ++ '#' :: (strL (toString t.line.1) ++ '-' :: strL (toString t.line.2)))
        hT
      constructor
      · unfold parseFalseIdMethod
        rw [hflat, hsplit, show
            ((strL t.pkg_name).splitOn '.' ++ (strL t.outer_class).splitOn '.' ++
              ((strL (dollarToDot ic)).splitOn '.').dropLast) ++
            [((strL (dollarToDot ic)).splitOn '.').getLastI,
              strL t.name ++ '#' :: (strL (toString t.line.1) ++ '-' :: strL (toString t.line.2))] =
            (((strL t.pkg_name).splitOn '.' ++ (strL t.outer_class).splitOn '.' ++
              ((strL (dollarToDot ic)).splitOn '.').dropLast) ++
              [((strL (dollarToDot ic)).splitOn '.').getLastI]) ++
            [strL t.name ++ '#' :: (strL (toString t.line.1) ++ '-' :: strL (toString t.line.2))]
          by simp, pyNegIdx_append_one]
        simp [splitOn_hash_head _ _ hnh, strOf_strL]
      · unfold parseFalseIdClass leafClassName
        rw [hflat, hsplit, pyNegIdx_append_two, hic]
        simp [hicE, strOf_strL]

/-- A function tag inside a nested inner class. -/
def covTagInner : Tag := { covTagA with inner_class := some "Inner$1", line := (5, 9) }

/-- Witness for `method_id_parse_leaf_components` at a concrete nested tag. -/
theorem method_id_parse_leaf_components_witness :
    parseFalseIdMethod "p.A.Inner.1.m#5-9" = some "m" ∧
    parseFalseIdClass "p.A.Inner.1.m#5-9" = some (leafClassName covTagInner) :=
  method_id_parse_leaf_components covTagInner "p.A.Inner.1.m#5-9"
    (by decide) (by decide) (by decide) (by decide) (by decide)

/-!
## Method text search (src/repograph/graph_searcher.py, NewRepoSearcher)

`get_method_ids_contain_string` scans the non-test function elements of the
method-id map for a substring of their source text.  The `method_id_map`
values are modelled as the list of function tags it holds.
-/

/-- The scan over the map values: skip test methods, keep methods whose
source text contains the search string. -/
def snippetScan (methodMap : List Tag) (s : String) : List Tag :=
  methodMap.filter (fun m => !m.is_test && pyContains (strL m.code) (strL s))

/-- `list(set(methods))`, modelled as first-occurrence deduplication (CPython
set iteration order is unspecified; the claims below do not depend on it). -/
def dedupFirst (l : List Tag) : List Tag :=
  (l.foldl (fun acc t => if t ∈ acc then acc else acc ++ [t]) [])

/-- The truncation suffix: the source reassigns `methods = methods[:max_count]`
before formatting `len(methods) - max_count` into the suffix. -/
def snippetSuffix (methods : List Tag) (maxCount : Nat) : String :=
  if methods.length > maxCount then
    "\n... and " ++ toString ((methods.take maxCount).length - maxCount) ++ " more methods."
  else ""

/-- The numbered listing of (possibly truncated) matching methods. -/
def snippetListing (methods : List Tag) : String :=
  "The following methods contain the provided string content:\n" ++
    String.intercalate "\n"
      ((methods.enum.map (fun p =>
        toString (p.1 + 1) ++ ". \"" ++ (methodId p.2).getD "None" ++ "\"")))

/-- `NewRepoSearcher.get_method_ids_contain_string`: empty scan raises
`SnippetNotFoundError`, which the surrounding handler converts to its
message; otherwise dedup, truncate to `max_count`, and append the suffix. -/
def getMethodIdsContainString (methodMap : List Tag) (s : String) (maxCount : Nat) : String :=
  let methods0 := snippetScan methodMap s
  if methods0.isEmpty then
    "No covered methods contain the code snippet were found. Please check your input or try something else."
  else
    let methods := dedupFirst methods0
    let truncated := if methods.length > maxCount then methods.take maxCount else methods
    snippetListing truncated ++ snippetSuffix methods maxCount

/-- C9: whenever the deduplicated match list exceeds the cap, the reported
"+N more" suffix always claims `0` omitted methods (the source truncates the
list before computing `len(methods) - max_count`), although the claim (and
the obvious intent) is `N = total - cap`; the full result string carries that
zero suffix. -/
theorem snippet_suffix_reports_zero (methodMap : List Tag) (s : String) (maxCount : Nat)
    (h : (dedupFirst (snippetScan methodMap s)).length > maxCount) :
    snippetSuffix (dedupFirst (snippetScan methodMap s)) maxCount =
      "\n... and 0 more methods." ∧
    ∃ p, getMethodIdsContainString methodMap s maxCount = p ++ "\n... and 0 more methods." := by
  have hsuf : snippetSuffix (dedupFirst (snippetScan methodMap s)) maxCount =
      "\n... and 0 more methods." := by
    unfold snippetSuffix
    rw [if_pos h]
    have hlen : ((dedupFirst (snippetScan methodMap s)).take maxCount).length - maxCount = 0 := by
      rw [List.length_take]
      omega
    rw [hlen]
    rfl
  refine ⟨hsuf, ?_⟩
  have hne : (snippetScan methodMap s).isEmpty = false := by
    rcases hsc : snippetScan methodMap s with _ | ⟨a, rest⟩
    · rw [hsc] at h
      simp [dedupFirst] at h
    · rfl
  refine ⟨snippetListing (if (dedupFirst (snippetScan methodMap s)).length > maxCount
      then (dedupFirst (snippetScan methodMap s)).take maxCount
      else dedupFirst (snippetScan methodMap s)), ?_⟩
  unfold getMethodIdsContainString
  simp only [hne, Bool.false_eq_true, if_false, hsuf]

set_option maxRecDepth 40000 in
/-- Witness for `snippet_suffix_reports_zero`: 51 distinct matching non-test
methods against the default cap of 50; the claim expects "... and 1 more
methods", the code reports 0. -/
theorem snippet_suffix_reports_zero_witness :
    snippetSuffix
      (dedupFirst (snippetScan
        ((List.range 51).map (fun i => { covTagA with rel_fname := toString i })) "void"))
      50 = "\n... and 0 more methods." :=
  (snippet_suffix_reports_zero
    ((List.range 51).map (fun i => { covTagA with rel_fname := toString i })) "void" 50
    (by decide)).1

/-!
## Dynamic call-graph matching (src/repograph/construct_graph.py)

`CodeGraph.create_dynamic_graph` resolves each runtime `CGMethodNode`
against the statically parsed function tags via `match_tag`, using a lookup
keyed by `{file-stem}.{method-name}` and containment of the node line range
in the tag line range.
-/

/-- `src.schema.CGMethodNode`. -/
structure CGMethodNode where
  package : String
  class_name : String
  method_name : String
  start_line : Nat
  end_line : Nat
deriving DecidableEq

/-- `CGMethodNode.outer_class`: `class_name.split("$")[0]`. -/
def cgOuterClass (n : CGMethodNode) : String :=
  strOf ((strL n.class_name).splitOn '$').headI

/-- `CGMethodNode.inner_class`: `"$".join(class_name.split("$")[1:])` when a
`$` is present, else `None`. -/
def cgInnerClass (n : CGMethodNode) : Option String :=
  if pyContains (strL n.class_name) ['$'] then
    some (strOf (pyIntercalate ['$'] ((strL n.class_name).splitOn '$').tail))
  else none

/-- `pathlib.Path(fname).stem`: the final path component with its last
extension removed (Java file names are `Name.java`; degenerate dotfile
corner cases do not occur for the indexed sources). -/
def pathStem (fname : String) : String :=
  let base := ((strL fname).splitOn '/').getLastI
  let segs := base.splitOn '.'
  if segs.length ≥ 2 then strOf (pyIntercalate ['.'] segs.dropLast) else strOf base

/-- The grouping key of `tag_map`: `f"{file-stem}.{method-name}"`. -/
def tagKey (t : Tag) : String := pathStem t.fname ++ "." ++ t.name

/-- The nested `tag_map[key]` dict keyed by line range: inserting an already
present range overwrites in place, a new range is appended (Python dict
insertion-order semantics). -/
def rangeInsert (entries : List ((Nat × Nat) × Tag)) (r : Nat × Nat) (t : Tag) :
    List ((Nat × Nat) × Tag) :=
  if entries.any (fun e => decide (e.1 = r)) then
    entries.map (fun e => if e.1 = r then (r, t) else e)
  else entries ++ [(r, t)]

/-- The outer `tag_map` dict keyed by `tagKey`. -/
abbrev TagMap := List (String × List ((Nat × Nat) × Tag))

def tagMapInsert (m : TagMap) (k : String) (t : Tag) : TagMap :=
  if m.any (fun e => decide (e.1 = k)) then
    m.map (fun e => if e.1 = k then (k, rangeInsert e.2 t.line t) else e)
  else m ++ [(k, rangeInsert [] t.line t)]

/-- Building `tag_map` from the tag list: only function-category tags are
grouped. -/
def tagMapBuild (tags : List Tag) : TagMap :=
  tags.foldl (fun m t => if t.category = "function" then tagMapInsert m (tagKey t) t else m) []

/-- `query_key in tag_map` plus the candidate iteration: a missing key
contributes no candidates. -/
def tagMapGet (m : TagMap) (k : String) : List ((Nat × Nat) × Tag) :=
  match m.find? (fun e => decide (e.1 = k)) with
  | some e => e.2
  | none => []

/-- The positions tried by the `rfind("$")` loop of `match_tag`, from the
rightmost `$` to the leftmost. -/
def dollarPositionsDesc (cls : PyStr) : List Nat :=
  ((List.range cls.length).filter (fun i => decide (cls.get? i = some ('$')))).reverse

/-- The query keys `match_tag` probes: for a `$`-bearing class name, each
`class_name[:idx] + "." + method_name` as `idx` walks the `$` positions
right-to-left; otherwise the single key `class_name + "." + method_name`. -/
def queryKeys (node : CGMethodNode) : List String :=
  let cls := strL node.class_name
  if pyContains cls ['$'] then
    (dollarPositionsDesc cls).map (fun i => strOf (cls.take i) ++ "." ++ node.method_name)
  else [node.class_name ++ "." ++ node.method_name]

/-- `founded_tags`: for every probed key, the tags whose line range contains
the node's range (`node.start_line >= start and node.end_line <= end`),
in map insertion order. -/
def foundedTags (m : TagMap) (node : CGMethodNode) : List Tag :=
  (queryKeys node).foldl (fun acc k =>
    acc ++ ((tagMapGet m k).filter
      (fun e => decide (e.1.1 ≤ node.start_line) && decide (node.end_line ≤ e.1.2))).map
        (fun e => e.2)) []

/-- `x.line[1] - x.line[0]`, the sort key for the multi-match tie-break. -/
def tagSpan (t : Tag) : Nat := t.line.2 - t.line.1

/-- The in-place mutation performed on a resolved tag: outer/inner class
names copied from the runtime node, `is_covered = True`. -/
def coverTag (t : Tag) (node : CGMethodNode) : Tag :=
  { t with outer_class := cgOuterClass node, inner_class := cgInnerClass node,
           is_covered := true }

/-- `sorted(founded_tags, key=span)[0]`: Python's sort is stable, so the
chosen element is the first one attaining the minimal span, which is what
this left fold computes. -/
def selectMin (t : Tag) (rest : List Tag) : Tag :=
  rest.foldl (fun best u => if tagSpan u < tagSpan best then u else best) t

/-- `match_tag`: no candidate resolves to `None` (non-fatal skip); one or
more candidates resolve to the smallest-span candidate, covered and bound to
the node's class names.  (The source's explicit `len == 1` branch coincides
with the fold on a singleton.) -/
def matchTag (m : TagMap) (node : CGMethodNode) : Option Tag :=
  match foundedTags m node with
  | [] => none
  | t :: rest => some (coverTag (selectMin t rest) node)

/-- The node-resolution loop of `create_dynamic_graph`: unmatched nodes are
skipped without error (`node_to_tag` simply lacks them), which is why the
function is total. -/
def matchNodes (m : TagMap) (nodes : List CGMethodNode) : List (CGMethodNode × Tag) :=
  nodes.foldr (fun n acc =>
    match matchTag m n with
    | some t => (n, t) :: acc
    | none => acc) []

/-- The fold used by `selectMin` returns a member of the candidate list
attaining the minimal span. -/
theorem selectMin_spec (t : Tag) (rest : List Tag) :
    selectMin t rest ∈ t :: rest ∧ ∀ u ∈ t :: rest, tagSpan (selectMin t rest) ≤ tagSpan u := by
  induction rest generalizing t with
  | nil =>
    constructor
    · exact List.mem_cons_self _ _
    · intro u hu
      rcases List.mem_cons.mp hu with h | h
      · exact le_of_eq (congrArg tagSpan (h ▸ rfl))
      · exact absurd h (List.not_mem_nil u)
  | cons v vs ih =>
    have hstep : selectMin t (v :: vs) = selectMin (if tagSpan v < tagSpan t then v else t) vs := by
      unfold selectMin
      rw [List.foldl_cons]
    by_cases h : tagSpan v < tagSpan t
    · rw [hstep, if_pos h]
      rcases ih v with ⟨hmem, hle⟩
      constructor
      · rcases List.mem_cons.mp hmem with h2 | h2
        · exact List.mem_cons.mpr (Or.inr (List.mem_cons.mpr (Or.inl h2)))
        · exact List.mem_cons.mpr (Or.inr (List.mem_cons.mpr (Or.inr h2)))
      · intro u hu
        rcases List.mem_cons.mp hu with h2 | h2
        · exact le_trans (le_trans (hle v (List.mem_cons_self _ _)) (le_of_lt h)) (le_of_eq (congrArg tagSpan h2.symm))
        · exact hle u h2
    · rw [hstep, if_neg h]
      rcases ih t with ⟨hmem, hle⟩
      constructor
      · rcases List.mem_cons.mp hmem with h2 | h2
        · exact List.mem_cons.mpr (Or.inl h2)
        · exact List.mem_cons.mpr (Or.inr (List.mem_cons.mpr (Or.inr h2)))
      · intro u hu
        rcases List.mem_cons.mp hu with h2 | h2
        · exact hle u (h2 ▸ List.mem_cons_self _ _)
        · rcases List.mem_cons.mp h2 with h3 | h3
          · exact le_trans (hle t (List.mem_cons_self _ _)) (h3 ▸ le_of_not_lt h)
          · exact hle u (List.mem_cons.mpr (Or.inr h3))

/-- C8: `match_tag` resolves a runtime node to the smallest-span candidate
among the tags whose key matches and whose line range contains the node's
range, marking it covered and binding the node's outer/inner class names;
a node with no candidate is left unresolved (`none`) without failing. -/
theorem match_tag_resolution (m : TagMap) (node : CGMethodNode) :
    (foundedTags m node = [] → matchTag m node = none) ∧
    (∀ t, matchTag m node = some t →
      ∃ t0 ∈ foundedTags m node,
        t = coverTag t0 node ∧
        (∀ u ∈ foundedTags m node, tagSpan t0 ≤ tagSpan u) ∧
        t.is_covered = true ∧ t.outer_class = cgOuterClass node ∧
        t.inner_class = cgInnerClass node) := by
  constructor
  · intro h
    unfold matchTag
    rw [h]
  · intro t ht
    unfold matchTag at ht
    rcases hf : foundedTags m node with _ | ⟨a, rest⟩
    · rw [hf] at ht
      exact absurd ht (by simp)
    · rw [hf] at ht
      have hval := Option.some.inj ht
      rcases selectMin_spec a rest with ⟨hmem, hle⟩
      refine ⟨selectMin a rest, ?_, hval.symm, ?_, ?_, ?_, ?_⟩
      · exact hmem
      · intro u hu
        exact hle u hu
      · rw [← hval]
        rfl
      · rw [← hval]
        rfl
      · rw [← hval]
        rfl

/-- A wide enclosing candidate for the witness. -/
def wideTag : Tag := { covTagA with line := (1, 10) }

/-- A tighter enclosing candidate for the witness. -/
def tightTag : Tag := { covTagA with line := (2, 5) }

/-- A runtime node contained in both candidates. -/
def cgNodeW : CGMethodNode :=
  { package := "p", class_name := "A", method_name := "m", start_line := 3, end_line := 4 }

/-- Witness for `match_tag_resolution`: with two enclosing candidates the
tighter one (span 3) is chosen, covered, and bound to the node's names. -/
theorem match_tag_resolution_witness :
    ∃ t0 ∈ foundedTags (tagMapBuild [wideTag, tightTag]) cgNodeW,
      coverTag tightTag cgNodeW = coverTag t0 cgNodeW ∧
      (∀ u ∈ foundedTags (tagMapBuild [wideTag, tightTag]) cgNodeW, tagSpan t0 ≤ tagSpan u) ∧
      (coverTag tightTag cgNodeW).is_covered = true ∧
      (coverTag tightTag cgNodeW).outer_class = cgOuterClass cgNodeW ∧
      (coverTag tightTag cgNodeW).inner_class = cgInnerClass cgNodeW :=
  (match_tag_resolution (tagMapBuild [wideTag, tightTag]) cgNodeW).2
    (coverTag tightTag cgNodeW) (by decide)

/-!
## Search-phase fan-out (src/core/pingfl_agent.py)

`PingflAgent.process_function_calls` forks the current `ProcessState` into
children for a multi-tool-call oracle turn, charging `cur_paths` against the
`max_search_paths` budget, then retires the parent.  The charge, each
`create_process` call (whose future is submitted immediately), and the
parent `processes.pop` acquire `process_lock` separately — the fork is not
one critical section.  `processFunctionCallsStep` below is the aggregate
effect of the whole fork, while `forkStates` lists the states visible at
each lock-release boundary inside it, including the instants where the
parent and all created children coexist in the map.  Live `ProcessState`
entries are modelled by their integer ids.
-/

/-- The orchestrator bookkeeping touched by a fork step. -/
structure Orch where
  max_parallel : Nat
  max_paths : Nat
  cur_paths : Nat
  processes : List Nat
  counter : Nat
deriving DecidableEq

/-- The effective `max_parallel` of one fork step: forced to 1 once
`cur_paths >= max_paths`, otherwise
`min(min(numToolCalls, max_parallel) - 1, max_paths - cur_paths) + 1`. -/
def pfcMp (o : Orch) (tc : Nat) : Nat :=
  if o.cur_paths ≥ o.max_paths then 1
  else min (min tc o.max_parallel - 1) (o.max_paths - o.cur_paths) + 1

/-- `if max_parallel > 1: self.cur_paths += max_parallel - 1` (still under
the lock). -/
def pfcCharge (o : Orch) (tc : Nat) : Orch :=
  if pfcMp o tc > 1 then { o with cur_paths := o.cur_paths + (pfcMp o tc - 1) } else o

/-- The number of children created: `len(tool_calls[:max_parallel])`. -/
def pfcK (o : Orch) (tc : Nat) : Nat := min tc (pfcMp o tc)

/-- The aggregate effect of one `process_function_calls` call for a turn
requesting `tc` simultaneous queries: charge the counter, create one child
per entry of `tool_calls[:max_parallel]` with fresh ids, and pop the
parent.  Returns the final state and the number of children created; the
intermediate states between the three lock regions are listed by
`forkStates`. -/
def processFunctionCallsStep (o : Orch) (pid : Nat) (tc : Nat) : Orch × Nat :=
  let o1 := pfcCharge o tc
  let k := pfcK o tc
  let childIds := (List.range k).map (fun i => o1.counter + i)
  ({ o1 with processes := (o1.processes ++ childIds).erase pid,
             counter := o1.counter + k }, k)

theorem pfcCharge_processes (o : Orch) (tc : Nat) : (pfcCharge o tc).processes = o.processes := by
  unfold pfcCharge
  split <;> rfl

theorem pfcCharge_counter (o : Orch) (tc : Nat) : (pfcCharge o tc).counter = o.counter := by
  unfold pfcCharge
  split <;> rfl

theorem pfcMp_pos (o : Orch) (tc : Nat) : 1 ≤ pfcMp o tc := by
  unfold pfcMp
  split <;> omega

theorem pfcCharge_cur (o : Orch) (tc : Nat) :
    (pfcCharge o tc).cur_paths = o.cur_paths + (pfcMp o tc - 1) := by
  have hpos := pfcMp_pos o tc
  unfold pfcCharge
  split
  · rfl
  · show o.cur_paths = o.cur_paths + (pfcMp o tc - 1)
    omega

theorem pfcMp_le (o : Orch) (tc : Nat) (h4 : 1 ≤ tc) (h5 : 1 ≤ o.max_parallel) :
    pfcMp o tc ≤ min tc o.max_parallel := by
  unfold pfcMp
  split
  · omega
  · omega

theorem pfcK_eq (o : Orch) (tc : Nat) (h4 : 1 ≤ tc) (h5 : 1 ≤ o.max_parallel) :
    pfcK o tc = pfcMp o tc := by
  have hle := pfcMp_le o tc h4 h5
  unfold pfcK
  omega

theorem pfcCharge_bound (o : Orch) (tc : Nat) (h1 : o.cur_paths ≤ o.max_paths) :
    o.cur_paths + (pfcMp o tc - 1) ≤ o.max_paths := by
  unfold pfcMp
  split
  · omega
  · omega

/-- The states of the orchestrator bookkeeping at each lock-release
boundary inside one `process_function_calls` call: after the charge region,
after each of the `k` `create_process` calls (index `i` = number of
children created so far, their futures already running), and after the
parent-pop region. -/
def forkStates (o : Orch) (pid : Nat) (tc : Nat) : List Orch :=
  ((List.range (pfcK o tc + 1)).map (fun i =>
    { pfcCharge o tc with
        processes := (pfcCharge o tc).processes ++
          (List.range i).map (fun j => (pfcCharge o tc).counter + j),
        counter := (pfcCharge o tc).counter + i })) ++
    [(processFunctionCallsStep o pid tc).1]

/-- C5 counterexample: with the budget already reached (`max_paths = 1`,
one live path), a forced-serial fork still creates its single child before
popping the parent, so at the lock-release instant after `create_process`
the map holds two live `ProcessState` entries — more than `max_paths`.
This refutes the claim that the live count never exceeds the budget at any
instant. -/
theorem fan_out_instant_counterexample :
    ∃ s ∈ forkStates
        { max_parallel := 2, max_paths := 1, cur_paths := 1,
          processes := [0], counter := 1 } 0 2,
      s.processes.length >
        ({ max_parallel := 2, max_paths := 1, cur_paths := 1,
           processes := [0], counter := 1 } : Orch).max_paths := by
  decide

/-- C5 amended: under the loop invariants (`cur_paths` within budget, one
live process entry per charged path, the forking parent live with an id
below the fresh-id counter, at least one requested query, a positive
configured `max_parallel`), a fork keeps the path counter within
`max_paths` and the live `ProcessState` count within `max_paths + 1` at
every lock-release instant — the `+ 1` slack is the retired-but-not-yet-
popped parent, really reached mid-fork (see the counterexample) because the
charge, the child creations and the parent pop are separate lock regions;
at fork completion the live count is back within `max_paths` and equal to
the counter.  Each fork creates at most `min(requested, max_parallel)`
children, collapses to exactly one child once the budget is reached, and
removes the parent. -/
theorem fan_out_bounded_with_transient (o : Orch) (pid : Nat) (tc : Nat)
    (h1 : o.cur_paths ≤ o.max_paths)
    (h2 : o.processes.length = o.cur_paths)
    (h3 : pid ∈ o.processes)
    (h4 : 1 ≤ tc)
    (h5 : 1 ≤ o.max_parallel)
    (h6 : o.processes.Nodup)
    (h7 : ∀ i ∈ o.processes, i < o.counter) :
    (∀ s ∈ forkStates o pid tc, s.processes.length ≤ o.max_paths + 1) ∧
    ((processFunctionCallsStep o pid tc).1.cur_paths ≤ o.max_paths) ∧
    ((processFunctionCallsStep o pid tc).1.processes.length =
      (processFunctionCallsStep o pid tc).1.cur_paths) ∧
    ((processFunctionCallsStep o pid tc).1.processes.length ≤ o.max_paths) ∧
    ((processFunctionCallsStep o pid tc).2 ≤ min tc o.max_parallel) ∧
    (1 ≤ (processFunctionCallsStep o pid tc).2) ∧
    (o.cur_paths ≥ o.max_paths → (processFunctionCallsStep o pid tc).2 = 1) ∧
    (pid ∉ (processFunctionCallsStep o pid tc).1.processes) := by
  have hk := pfcK_eq o tc h4 h5
  have hmple := pfcMp_le o tc h4 h5
  have hmppos := pfcMp_pos o tc
  have hbound := pfcCharge_bound o tc h1
  have hcur : (processFunctionCallsStep o pid tc).1.cur_paths =
      o.cur_paths + (pfcMp o tc - 1) := pfcCharge_cur o tc
  have hsnd : (processFunctionCallsStep o pid tc).2 = pfcK o tc := rfl
  have hpr : (processFunctionCallsStep o pid tc).1.processes =
      (o.processes ++ (List.range (pfcK o tc)).map (fun i => (pfcCharge o tc).counter + i)).erase
        pid := by
    show ((pfcCharge o tc).processes ++ _).erase pid = _
    rw [pfcCharge_processes]
  have hlen : (processFunctionCallsStep o pid tc).1.processes.length =
      o.processes.length + pfcK o tc - 1 := by
    rw [hpr, List.length_erase_of_mem (List.mem_append.mpr (Or.inl h3))]
    simp
  have hpid : pid ∉ (processFunctionCallsStep o pid tc).1.processes := by
    rw [hpr, List.erase_append_left _ h3]
    intro hmem
    rcases List.mem_append.mp hmem with hm | hm
    · exact ((List.Nodup.mem_erase_iff h6).mp hm).1 rfl
    · rcases List.mem_map.mp hm with ⟨i, _, hi⟩
      have hlt := h7 pid h3
      rw [pfcCharge_counter] at hi
      omega
  refine ⟨?_, ?_, ?_, ?_, ?_, ?_, ?_, hpid⟩
  · intro s hs
    rcases List.mem_append.mp hs with hm | hm
    · rcases List.mem_map.mp hm with ⟨i, hi, hsi⟩
      have hilt : i < pfcK o tc + 1 := List.mem_range.mp hi
      rw [← hsi]
      simp only [List.length_append, List.length_map, List.length_range, pfcCharge_processes]
      omega
    · rw [List.mem_singleton] at hm
      subst hm
      rw [hlen]
      omega
  · omega
  · rw [hlen, hcur]
    omega
  · rw [hlen]
    omega
  · omega
  · omega
  · intro hc
    have : pfcMp o tc = 1 := by
      unfold pfcMp
      rw [if_pos hc]
    omega

/-- Witness for `fan_out_bounded_with_transient`: budget 2, one live path, a
turn requesting three queries with `max_parallel = 3`; two children are
created, every lock-release instant stays within budget + 1, and the final
live count is back at the budget. -/
theorem fan_out_bounded_with_transient_witness :
    (∀ s ∈ forkStates
        { max_parallel := 3, max_paths := 2, cur_paths := 1,
          processes := [0], counter := 1 } 0 3,
      s.processes.length ≤ 3) ∧
    ((processFunctionCallsStep
        { max_parallel := 3, max_paths := 2, cur_paths := 1,
          processes := [0], counter := 1 } 0 3).1.cur_paths ≤ 2) ∧
    ((processFunctionCallsStep
        { max_parallel := 3, max_paths := 2, cur_paths := 1,
          processes := [0], counter := 1 } 0 3).1.processes.length =
      (processFunctionCallsStep
        { max_parallel := 3, max_paths := 2, cur_paths := 1,
          processes := [0], counter := 1 } 0 3).1.cur_paths) ∧
    ((processFunctionCallsStep
        { max_parallel := 3, max_paths := 2, cur_paths := 1,
          processes := [0], counter := 1 } 0 3).1.processes.length ≤ 2) ∧
    ((processFunctionCallsStep
        { max_parallel := 3, max_paths := 2, cur_paths := 1,
          processes := [0], counter := 1 } 0 3).2 ≤ min 3 3) ∧
    (1 ≤ (processFunctionCallsStep
        { max_parallel := 3, max_paths := 2, cur_paths := 1,
          processes := [0], counter := 1 } 0 3).2) ∧
    ((1 : Nat) ≥ 2 → (processFunctionCallsStep
        { max_parallel := 3, max_paths := 2, cur_paths := 1,
          processes := [0], counter := 1 } 0 3).2 = 1) ∧
    (0 ∉ (processFunctionCallsStep
        { max_parallel := 3, max_paths := 2, cur_paths := 1,
          processes := [0], counter := 1 } 0 3).1.processes) :=
  fan_out_bounded_with_transient
    { max_parallel := 3, max_paths := 2, cur_paths := 1, processes := [0], counter := 1 }
    0 3 (by decide) (by decide) (by decide) (by decide) (by decide) (by decide)
    (by decide)

/-!
## Verification engine (src/core/verify_agent.py)

`VerifyAgent.run_process` checks out a playground, backs up the target file,
reads its pristine content once, and then loops: each oracle response either
carries a ```java edit block — applied via `edit_and_run` — or ends the
debug phase, after which a second loop solicits a JSON verdict.  The
workspace `shutil.rmtree` runs only after the verdict loop breaks.

The oracle and the external test runner are modelled as inputs: a list of
response texts and a function from invocation index to test outcome
(`Except.error` = compilation failure, i.e. `CompileError`).
-/

/-- The exceptions of src/exceptions.py raised inside the loop, plus the two
uncaught conditions of the verdict phase. -/
inductive VerifyErr where
  | editFormat
  | editContent
  | printStmtMissing
  | compile (msg : String)
  | jsonDecode
  | keyNotFound
deriving DecidableEq

/-- `re.search(r"```java\n(.*?)\n```", text, re.DOTALL)` (same for json):
the lazy group is the text between the first fence opening and the first
`\n```' after it, which first-occurrence splitting computes exactly. -/
def extractFencedBlock (fence : String) (text : PyStr) : Option PyStr :=
  match pyFindSplit (strL fence ++ ['\n']) text with
  | none => none
  | some (_, after) =>
    match pyFindSplit (strL "\n```") after with
    | none => none
    | some (inner, _) => some inner

/-- `extract_java_block`. -/
def extractJavaBlock (text : PyStr) : Option PyStr := extractFencedBlock "```java" text

/-- `extract_json_block`. -/
def extractJsonBlock (text : PyStr) : Option PyStr := extractFencedBlock "```json" text

/-- Scan for the separator `\n=+\n` of the search/replace regex: returns the
text before the separator (the lazily matched search text) and the text
after it. -/
def scanEqSep : PyStr → Option (PyStr × PyStr)
  | [] => none
  | c :: rest =>
    if c = '\n' ∧ rest.takeWhile (· == '=') ≠ [] ∧
        (rest.dropWhile (· == '=')).head? = some '\n' then
      some ([], (rest.dropWhile (· == '=')).tail)
    else (scanEqSep rest).map (fun p => (c :: p.1, p.2))

/-- Scan for the closing `\n>+ REPLACE` of the search/replace regex:
returns the lazily matched replace text before it. -/
def scanGtReplace : PyStr → Option PyStr
  | [] => none
  | c :: rest =>
    if c = '\n' ∧ rest.takeWhile (· == '>') ≠ [] ∧
        (strL " REPLACE").isPrefixOf (rest.dropWhile (· == '>')) then
      some []
    else (scanGtReplace rest).map (fun p => c :: p)

/-- `extract_search_replace_block`, i.e.
`re.search(r"<+ SEARCH\n(.*?)\n=+\n(.*?)\n>+ REPLACE", text, re.DOTALL)`:
the match anchors at the first `< SEARCH` marker (every `<+` run ends in
one `<`), the search group runs to the first `\n=+\n` after it, the replace
group to the first `\n>+ REPLACE` after that; first-occurrence scanning
computes exactly these lazy groups. -/
def extractSearchReplaceBlock (cmd : PyStr) : Option (PyStr × PyStr) :=
  match pyFindSplit (strL "< SEARCH\n") cmd with
  | none => none
  | some (_, after) =>
    match scanEqSep after with
    | none => none
    | some (searchText, rest) =>
      match scanGtReplace rest with
      | none => none
      | some replaceText => some (searchText, replaceText)

/-- `apply_edit_commands_search_replace`: build the context window
`"\n" + "\n".join(lines[max(start-6,0) : end+6]) + "\n"`, require the search
text as a plain substring (`EditCommandContentError` otherwise,
`EditCommandFormatError` for an unparsable instruction), replace all
occurrences, count the extra lines, and reassemble around the window.
`Nat` subtraction gives Python's `max(start - 6, 0)` directly. -/
def applyEditSR (editCommand content : String) (interval : Nat × Nat) :
    Except VerifyErr (String × Int) :=
  let contentLines := pySplitlines (strL content)
  let startLine : Nat := interval.1 - 6
  let endLine : Nat := interval.2 + 6
  let seg1 : PyStr := '\n' :: pyJoinNL (pySliceN startLine endLine contentLines) ++ ['\n']
  match extractSearchReplaceBlock (strL editCommand) with
  | none => Except.error VerifyErr.editFormat
  | some (searchText, replaceText) =>
    if pyContains seg1 searchText then
      let seg2 := pyReplace seg1 searchText replaceText
      let extra : Int := (pyCount replaceText ['\n'] : Int) - (pyCount searchText ['\n'] : Int)
      Except.ok
        (strOf (pyJoinNL (contentLines.take startLine) ++ seg2 ++
          pyJoinNL (contentLines.drop endLine)), extra)
    else Except.error VerifyErr.editContent

/-- `re.findall(r"(System\.out\.println\((.*?)\);)", text, re.DOTALL)`:
non-overlapping scan; each match runs from an opening marker to the first
`);` after it, and scanning resumes past the match.  If an opening marker
has no `);` after it, no later marker has one either, so the scan ends.
The fuel `s.length` dominates the number of matches. -/
def extractPrintBlocksF : Nat → PyStr → List (PyStr × PyStr)
  | 0, _ => []
  | fuel + 1, s =>
    match pyFindSplit (strL "System.out.println(") s with
    | none => []
    | some (_, after) =>
      match pyFindSplit (strL ");") after with
      | none => []
      | some (args, rest) =>
        (strL "System.out.println(" ++ args ++ strL ");", args) ::
          extractPrintBlocksF fuel rest

def extractPrintBlocks (s : PyStr) : List (PyStr × PyStr) := extractPrintBlocksF s.length s

/-- The file-append replacement `write_stmt.format(...)` of
`transform_print_stmt`; `output_str` is the print argument with newlines
removed, `output_file` the playground's `output.txt` (path resolution is
modelled as the given path text). -/
def writeStmt (args : PyStr) (outputFile : String) : PyStr :=
  strL ("try \x7b Path filePath = Paths.get(\"" ++ outputFile ++ "\"); Files.write(filePath, (") ++
    pyReplace args ['\n'] [] ++
    strL (" + \"\\n\").getBytes(), StandardOpenOption.CREATE, StandardOpenOption.APPEND); \x7d catch (Exception e) \x7b e.printStackTrace(); \x7d")

/-- The Java import statement inserted after the `package` line. -/
def importStmtStr : String := "import java.nio.file.Files; import java.nio.file.Path; import java.nio.file.Paths; import java.nio.file.StandardOpenOption;"

/-- Insert the imports after the first line starting with `package `
(no-op when no such line exists, as in the source's `for ... break`). -/
def insertImportAfterPackage : List PyStr → List PyStr
  | [] => []
  | l :: rest =>
    if (strL "package ").isPrefixOf l then l :: strL importStmtStr :: rest
    else l :: insertImportAfterPackage rest

/-- `transform_print_stmt`: rewrite every `System.out.println(...)` in the
window into the file-append statement (raising `PrintStmtNotFoundError` when
none is present) and insert the imports.  The window bounds come from the
edit's shifted interval and may be any integers, hence Python slicing with
`Int` endpoints. -/
def transformPrintStmt (content : String) (outputFile : String) (interval : Int × Int) :
    Except VerifyErr String :=
  let lines := pySplitlines (strL content)
  let seg1 : PyStr := '\n' :: pyJoinNL (pySliceI interval.1 interval.2 lines) ++ ['\n']
  let found := extractPrintBlocks seg1
  if found.isEmpty then Except.error VerifyErr.printStmtMissing
  else
    let seg2 := found.foldl (fun seg pr => pyReplace seg pr.1 (writeStmt pr.2 outputFile)) seg1
    let out := pyJoinNL (pySliceI 0 interval.1 lines) ++ seg2 ++
      pyJoinNL (pySliceI interval.2 (lines.length : Int) lines)
    Except.ok (strOf (pyJoinNL (insertImportAfterPackage (pySplitlines out))))

/-- The pure patched-file computation of one `edit_and_run` call: apply the
search/replace edit to the pristine `content`, then the print transformation
on the shifted window.  This is what `java_file.write_text` writes. -/
def editPipeline (editCommand content : String) (interval : Nat × Nat) (outputFile : String) :
    Except VerifyErr String :=
  match applyEditSR editCommand content interval with
  | Except.error e => Except.error e
  | Except.ok (newContent, extra) =>
    transformPrintStmt newContent outputFile ((interval.1 : Int), (interval.2 : Int) + extra)

/-- `edit_and_run`: patched-file computation, then the single-test run in the
playground (`Except.error` = `CompileError` with the filtered build log);
on success returns the written content and the captured output. -/
def editAndRun (editCommand content : String) (interval : Nat × Nat) (outputFile : String)
    (testResult : Except String String) : Except VerifyErr (String × String) :=
  match editPipeline editCommand content interval outputFile with
  | Except.error e => Except.error e
  | Except.ok finalContent =>
    match testResult with
    | Except.error m => Except.error (VerifyErr.compile m)
    | Except.ok out => Except.ok (finalContent, out)

/-- The `{` and `}` characters. -/
def braceOpen : Char := Char.ofNat 123
def braceClose : Char := Char.ofNat 125
def quoteChar : Char := Char.ofNat 34

/-- Python `str.strip()`. -/
def pyStrip (s : PyStr) : PyStr :=
  ((s.dropWhile (·.isWhitespace)).reverse.dropWhile (·.isWhitespace)).reverse

/-- Strip surrounding double quotes from a trimmed token. -/
def unquote (s : PyStr) : Option PyStr :=
  match pyStrip s with
  | [] => none
  | c :: rest =>
    if c = quoteChar ∧ rest.getLast? = some quoteChar ∧ quoteChar ∉ rest.dropLast ∧
        rest ≠ [] then
      some rest.dropLast
    else none

/-- One `"key": "value"` member. -/
def parseJsonPair (s : PyStr) : Option (String × String) :=
  match s.splitOn ':' with
  | [k, v] =>
    match unquote k, unquote v with
    | some k2, some v2 => some (strOf k2, strOf v2)
    | _, _ => none
  | _ => none

/-- Model of `json.loads(result)` followed by the `result["category"]`
subscript, restricted to flat JSON objects with quote-free string keys and
values (the shape the verdict prompt requests).  Any other input raises in
Python — either `json.JSONDecodeError` at `json.loads` or `TypeError` at the
subscript — and both propagate uncaught out of `run_process`; the model
folds every such input into `none`. -/
def miniJsonLoads (s : String) : Option (List (String × String)) :=
  match pyStrip (strL s) with
  | [] => none
  | c :: rest =>
    if c = braceOpen ∧ rest.getLast? = some braceClose then
      let body := rest.dropLast
      if (pyStrip body).isEmpty then some []
      else (body.splitOn ',').mapM parseJsonPair
    else none

/-- Python dict lookup (`KeyError` modelled as `none`). -/
def lookupKey (obj : List (String × String)) (k : String) : Option String :=
  (obj.find? (fun e => decide (e.1 = k))).map (fun e => e.2)

/-- The observable state of one `run_process` call: whether the playground
directory exists, the java file's on-disk content (`none` = still moved away
to the `.bak` backup), the `ProcessState` counters, and the number of test
runs consumed. -/
structure RunState where
  playgroundExists : Bool
  disk : Option String
  editCount : Nat
  retryCount : Nat
  testIdx : Nat
deriving DecidableEq

/-- How a modelled `run_process` call ends: a terminal verdict, a propagated
exception, or exhaustion of the supplied response script (the real loop
would keep calling the oracle). -/
inductive ROutcome where
  | finished (category : String)
  | raised (e : VerifyErr)
  | outOfResponses
deriving DecidableEq

def initRunState : RunState :=
  { playgroundExists := true, disk := none, editCount := 0, retryCount := 0, testIdx := 0 }

/-- The print-debugging `while True` loop of `run_process`: a response with
a ```java block goes through `edit_and_run` — every raised edit error
(format, content, missing println, `CompileError`) is caught, fed back, and
counted as a retry, a success is counted as an edit; the written file always
comes from the pristine `content` argument.  A response without a java block
breaks to the verdict phase with the remaining script. -/
def debugLoop (content : String) (interval : Nat × Nat) (outputFile : String)
    (tests : Nat → Except String String) :
    List String → RunState → RunState × Option (List String)
  | [], st => (st, none)
  | r :: rest, st =>
    match extractJavaBlock (strL r) with
    | some cmd =>
      match editPipeline (strOf cmd) content interval outputFile with
      | Except.error _ =>
        debugLoop content interval outputFile tests rest
          { st with retryCount := st.retryCount + 1 }
      | Except.ok finalContent =>
        match tests st.testIdx with
        | Except.error _ =>
          debugLoop content interval outputFile tests rest
            { st with disk := some finalContent, retryCount := st.retryCount + 1,
                      testIdx := st.testIdx + 1 }
        | Except.ok _ =>
          debugLoop content interval outputFile tests rest
            { st with disk := some finalContent, editCount := st.editCount + 1,
                      testIdx := st.testIdx + 1 }
    | none => (st, some rest)

/-- The verdict `while True` loop: a response without a ```json block is a
counted format retry; a block that is not a flat JSON object raises
(uncaught) as does a missing `category` key; an invalid category is a
counted retry; a valid category breaks, after which `shutil.rmtree` removes
the playground. -/
def verifyLoop : List String → RunState → RunState × ROutcome
  | [], st => (st, ROutcome.outOfResponses)
  | r :: rest, st =>
    match extractJsonBlock (strL r) with
    | none => verifyLoop rest { st with retryCount := st.retryCount + 1 }
    | some block =>
      match miniJsonLoads (strOf block) with
      | none => (st, ROutcome.raised VerifyErr.jsonDecode)
      | some obj =>
        match lookupKey obj "category" with
        | none => (st, ROutcome.raised VerifyErr.keyNotFound)
        | some cat =>
          if cat = "buggy" ∨ cat = "benign" ∨ cat = "uncertain" then
            ({ st with playgroundExists := false }, ROutcome.finished cat)
          else verifyLoop rest { st with retryCount := st.retryCount + 1 }

/-- `VerifyAgent.run_process` over a response script: playground checkout
and backup, the debug loop, then the verdict loop; the `rmtree` cleanup is
the `playgroundExists := false` on the `finished` path and nowhere else. -/
def runProcessModel (content : String) (interval : Nat × Nat) (outputFile : String)
    (tests : Nat → Except String String) (responses : List String) : RunState × ROutcome :=
  match debugLoop content interval outputFile tests responses initRunState with
  | (st, none) => (st, ROutcome.outOfResponses)
  | (st, some rest) => verifyLoop rest st

/-- The canonical search/replace instruction replacing `b` with `b\nd`. -/
def srCmdGood : String := "<<<<<<< SEARCH\nb\n=======\nb\nd\n>>>>>>> REPLACE"

/-- A search text differing from the window text only by a trailing space. -/
def srCmdSpace : String := "<<<<<<< SEARCH\nb \n=======\nq\n>>>>>>> REPLACE"

/-- A search text absent from the window. -/
def srCmdMissing : String := "<<<<<<< SEARCH\nzz\n=======\nq\n>>>>>>> REPLACE"

/-- C3 counterexample: on the spec's own example — file content
`"a\nb\nc\n"`, window covering those lines, replacing `"b"` by `"b\nd"` —
the engine returns the content `"\na\nb\nd\nc\n"` (the sentinel newlines
wrapped around the window leak into the result when the window starts at
line 0), not the claimed `"a\nb\nd\nc\n"`; the extra-line count 1 is as
claimed. -/
theorem apply_edit_example_counterexample :
    applyEditSR srCmdGood "a\nb\nc\n" (1, 3) = Except.ok ("\na\nb\nd\nc\n", 1) ∧
    ("\na\nb\nd\nc\n" : String) ≠ "a\nb\nd\nc\n" := by
  constructor
  · rfl
  · decide

/-- C3 amended: the spec example yields `"\na\nb\nd\nc\n"` with extra-line
count 1; the search text is located by exact substring containment (no
whitespace normalisation: a trailing space makes the match fail with
`EditCommandContentError`); an absent search text raises
`EditCommandContentError` and a malformed instruction the distinct
`EditCommandFormatError`; and any edit error aborts `edit_and_run` before
the patched file is written, leaving the file on disk unchanged. -/
theorem apply_edit_search_replace_behavior :
    applyEditSR srCmdGood "a\nb\nc\n" (1, 3) = Except.ok ("\na\nb\nd\nc\n", 1) ∧
    applyEditSR srCmdSpace "a\nb\nc\n" (1, 3) = Except.error VerifyErr.editContent ∧
    applyEditSR srCmdMissing "a\nb\nc\n" (1, 3) = Except.error VerifyErr.editContent ∧
    applyEditSR "garbage" "a\nb\nc\n" (1, 3) = Except.error VerifyErr.editFormat ∧
    (∀ cmd content interval outputFile testResult e,
      applyEditSR cmd content interval = Except.error e →
      editAndRun cmd content interval outputFile testResult = Except.error e) := by
  refine ⟨by rfl, by rfl, by rfl, by rfl, ?_⟩
  intro cmd content interval outputFile testResult e h
  unfold editAndRun editPipeline
  rw [h]

/-- Witness for `apply_edit_search_replace_behavior`: the failing-search
case aborts `edit_and_run` with the content error. -/
theorem apply_edit_search_replace_behavior_witness :
    editAndRun srCmdMissing "a\nb\nc\n" (1, 3) "o" (Except.ok "t") =
      Except.error VerifyErr.editContent :=
  apply_edit_search_replace_behavior.2.2.2.2 srCmdMissing "a\nb\nc\n" (1, 3) "o"
    (Except.ok "t") VerifyErr.editContent (by rfl)

/-- A three-line Java-ish file with one print statement. -/
def content0 : String := "x\nSystem.out.println(a);\ny"

/-- An oracle response editing the print argument to `b`. -/
def respEditB : String := "```java\n<<<<<<< SEARCH\nSystem.out.println(a);\n=======\nSystem.out.println(b);\n>>>>>>> REPLACE\n```"

/-- An oracle response editing the print argument to `c`. -/
def respEditC : String := "```java\n<<<<<<< SEARCH\nSystem.out.println(a);\n=======\nSystem.out.println(c);\n>>>>>>> REPLACE\n```"

/-- The search/replace block carried by `respEditB`. -/
def blockB : PyStr := strL "<<<<<<< SEARCH\nSystem.out.println(a);\n=======\nSystem.out.println(b);\n>>>>>>> REPLACE"

/-- The file content `respEditB` produces from the pristine `content0`
(edit applied, print rewritten to the file append, no package line so no
imports). -/
def expectedFinalB : String := "\nx\ntry \x7b Path filePath = Paths.get(\"o\"); Files.write(filePath, (b + \"\\n\").getBytes(), StandardOpenOption.CREATE, StandardOpenOption.APPEND); \x7d catch (Exception e) \x7b e.printStackTrace(); \x7d\ny"

/-- C10: every iteration of the debug loop applies the oracle's edit to the
pristine `content` read from the backup before the loop, so after the
iteration that applied response `r`, the file on disk is exactly the
pipeline of the pristine content and `r`'s edit — independent of all earlier
edits in the run and of the incoming state. -/
theorem edit_applied_to_pristine (content : String) (interval : Nat × Nat) (outputFile : String)
    (tests : Nat → Except String String) (prefixResponses : List String) (r : String)
    (cmd : PyStr) (finalContent : String)
    (hall : ∀ s ∈ prefixResponses, (extractJavaBlock (strL s)).isSome = true)
    (hr : extractJavaBlock (strL r) = some cmd)
    (hp : editPipeline (strOf cmd) content interval outputFile = Except.ok finalContent)
    (st : RunState) :
    (debugLoop content interval outputFile tests (prefixResponses ++ [r]) st).1.disk =
      some finalContent := by
  revert hall
  induction prefixResponses generalizing st with
  | nil =>
    intro hall
    simp only [List.nil_append, debugLoop, hr, hp]
    cases htest : tests st.testIdx with
    | error m => simp only [debugLoop]
    | ok o => simp only [debugLoop]
  | cons s ss ih =>
    intro hall
    have hs := hall s (List.mem_cons_self _ _)
    rcases h2 : extractJavaBlock (strL s) with _ | cmd2
    · rw [h2] at hs
      exact absurd hs (by simp)
    · simp only [List.cons_append, debugLoop, h2]
      have hall2 : ∀ x ∈ ss, (extractJavaBlock (strL x)).isSome = true :=
        fun x hx => hall x (List.mem_cons_of_mem _ hx)
      cases hpipe : editPipeline (strOf cmd2) content interval outputFile with
      | error e => exact ih _ hall2
      | ok fc =>
        cases htest : tests st.testIdx with
        | error m => exact ih _ hall2
        | ok o => exact ih _ hall2

/-- Witness for `edit_applied_to_pristine`: after an earlier edit to `c`,
the iteration applying `respEditB` leaves on disk exactly the pipeline of
the pristine `content0` with the `b` edit — the `c` edit is gone. -/
theorem edit_applied_to_pristine_witness :
    (debugLoop content0 (2, 3) "o" (fun _ => Except.ok "t") ([respEditC] ++ [respEditB])
      initRunState).1.disk = some expectedFinalB :=
  edit_applied_to_pristine content0 (2, 3) "o" (fun _ => Except.ok "t") [respEditC] respEditB
    blockB expectedFinalB (by decide) (by rfl) (by rfl) initRunState

/-- A well-formed verdict response. -/
def goodJson : String := "```json\n\x7b\"category\": \"benign\"\x7d\n```"

/-- The debug loop never touches the playground directory. -/
theorem debugLoop_playground (content : String) (interval : Nat × Nat) (outputFile : String)
    (tests : Nat → Except String String) (responses : List String) (st : RunState) :
    (debugLoop content interval outputFile tests responses st).1.playgroundExists =
      st.playgroundExists := by
  induction responses generalizing st with
  | nil => rfl
  | cons r rest ih =>
    rcases hj : extractJavaBlock (strL r) with _ | cmd
    · simp only [debugLoop, hj]
    · simp only [debugLoop, hj]
      rcases hpipe : editPipeline (strOf cmd) content interval outputFile with e | fc
      · simp only [hpipe]
        exact ih _
      · simp only [hpipe]
        rcases htest : tests st.testIdx with m | o
        · simp only [htest]
          exact ih _
        · simp only [htest]
          exact ih _

/-- The verdict loop removes the playground exactly on the terminal-verdict
path; a raised exception or script exhaustion leaves it as it was. -/
theorem verifyLoop_playground (responses : List String) (st : RunState) :
    (∀ c, (verifyLoop responses st).2 = ROutcome.finished c →
      (verifyLoop responses st).1.playgroundExists = false) ∧
    (∀ e, (verifyLoop responses st).2 = ROutcome.raised e →
      (verifyLoop responses st).1.playgroundExists = st.playgroundExists) ∧
    ((verifyLoop responses st).2 = ROutcome.outOfResponses →
      (verifyLoop responses st).1.playgroundExists = st.playgroundExists) := by
  induction responses generalizing st with
  | nil =>
    refine ⟨?_, ?_, ?_⟩
    · intro c hc
      exact absurd hc (by simp [verifyLoop])
    · intro e he
      rfl
    · intro _
      rfl
  | cons r rest ih =>
    rcases hj : extractJsonBlock (strL r) with _ | block
    · simp only [verifyLoop, hj]
      exact ih _
    · simp only [verifyLoop, hj]
      rcases hload : miniJsonLoads (strOf block) with _ | obj
      · simp only [hload]
        refine ⟨?_, ?_, ?_⟩
        · intro c hc
          exact absurd hc (by simp)
        · intro e he
          trivial
        · intro h
          exact absurd h (by simp)
      · simp only [hload]
        rcases hcatk : lookupKey obj "category" with _ | cat
        · simp only [hcatk]
          refine ⟨?_, ?_, ?_⟩
          · intro c hc
            exact absurd hc (by simp)
          · intro e he
            trivial
          · intro h
            exact absurd h (by simp)
        · simp only [hcatk]
          by_cases hcat : cat = "buggy" ∨ cat = "benign" ∨ cat = "uncertain"
          · rw [if_pos hcat]
            refine ⟨?_, ?_, ?_⟩
            · intro c hc
              rfl
            · intro e he
              exact absurd he (by simp)
            · intro h
              exact absurd h (by simp)
          · rw [if_neg hcat]
            exact ih _

/-- C2 amended: the playground directory is removed exactly on the
normal-completion path of `run_process` (terminal verdict then `rmtree`);
when an exception propagates out of the run, the cleanup never executes and
the directory still exists when the call returns — deletion is not
unconditional over all exit paths. -/
theorem workspace_cleanup_on_exit (content : String) (interval : Nat × Nat)
    (outputFile : String) (tests : Nat → Except String String) (responses : List String) :
    (∀ c, (runProcessModel content interval outputFile tests responses).2 =
        ROutcome.finished c →
      (runProcessModel content interval outputFile tests responses).1.playgroundExists =
        false) ∧
    (∀ e, (runProcessModel content interval outputFile tests responses).2 =
        ROutcome.raised e →
      (runProcessModel content interval outputFile tests responses).1.playgroundExists =
        true) := by
  unfold runProcessModel
  rcases hd : debugLoop content interval outputFile tests responses initRunState with ⟨st, rem⟩
  have hpe : st.playgroundExists = true := by
    have := debugLoop_playground content interval outputFile tests responses initRunState
    rw [hd] at this
    exact this
  cases rem with
  | none =>
    refine ⟨?_, ?_⟩
    · intro c hc
      exact absurd hc (by simp)
    · intro e he
      exact absurd he (by simp)
  | some rest =>
    rcases verifyLoop_playground rest st with ⟨hfin, hraise, _⟩
    refine ⟨?_, ?_⟩
    · intro c hc
      exact hfin c hc
    · intro e he
      rw [hraise e he]
      exact hpe

/-- C2 counterexample: a run whose verdict response carries a ```json block
that is not valid JSON raises `json.JSONDecodeError` out of `run_process`;
the call returns with the playground directory still in place. -/
theorem workspace_cleanup_counterexample :
    (runProcessModel content0 (2, 3) "o" (fun _ => Except.ok "t")
      ["report", "```json\nnot json\n```"]).2 = ROutcome.raised VerifyErr.jsonDecode ∧
    (runProcessModel content0 (2, 3) "o" (fun _ => Except.ok "t")
      ["report", "```json\nnot json\n```"]).1.playgroundExists = true := by
  constructor
  · rfl
  · rfl

/-- Witness for `workspace_cleanup_on_exit`: a normally completing run ends
with the playground removed. -/
theorem workspace_cleanup_on_exit_witness :
    (runProcessModel content0 (2, 3) "o" (fun _ => Except.ok "t")
      ["report", goodJson]).1.playgroundExists = false :=
  (workspace_cleanup_on_exit content0 (2, 3) "o" (fun _ => Except.ok "t")
    ["report", goodJson]).1 "benign" (by rfl)

/-- Each debug-loop iteration whose response carries a successfully applied
edit adds one to `edit_count` and nothing stops the loop: over `n` identical
edit responses the counters grow linearly, for every starting state. -/
theorem debugLoop_replicate (n : Nat) (content : String) (interval : Nat × Nat)
    (outputFile : String) (tests : Nat → Except String String) (r : String) (cmd : PyStr)
    (finalContent : String) (tailResponses : List String)
    (hr : extractJavaBlock (strL r) = some cmd)
    (hp : editPipeline (strOf cmd) content interval outputFile = Except.ok finalContent)
    (htests : ∀ i, ∃ o, tests i = Except.ok o) (st : RunState) :
    debugLoop content interval outputFile tests (List.replicate n r ++ tailResponses) st =
      debugLoop content interval outputFile tests tailResponses
        { st with disk := if n = 0 then st.disk else some finalContent,
                  editCount := st.editCount + n, testIdx := st.testIdx + n } := by
  induction n generalizing st with
  | zero => rfl
  | succ m ih =>
    rw [List.replicate_succ, List.cons_append]
    rcases htests st.testIdx with ⟨o, ho⟩
    simp only [debugLoop, hr, hp, ho]
    rw [ih]
    apply congrArg
    simp only [RunState.mk.injEq, ite_self, Nat.succ_ne_zero, if_false]
    refine ⟨trivial, trivial, by omega, trivial, by omega⟩

/-- C4 amended: the print-debugging loop of `run_process` enforces no bound
at all — `edit_count` and `retry_count` are incremented but never compared
to any limit — so a run whose oracle keeps returning applicable edit
responses performs one edit per response without ever terminating of its own
accord: after `n` such responses the edit counter is exactly `n` and the
modelled script ends only by exhaustion. -/
theorem edit_loop_unbounded (n : Nat) (content : String) (interval : Nat × Nat)
    (outputFile : String) (tests : Nat → Except String String) (r : String) (cmd : PyStr)
    (finalContent : String)
    (hr : extractJavaBlock (strL r) = some cmd)
    (hp : editPipeline (strOf cmd) content interval outputFile = Except.ok finalContent)
    (htests : ∀ i, ∃ o, tests i = Except.ok o) :
    (runProcessModel content interval outputFile tests (List.replicate n r)).1.editCount = n ∧
    (runProcessModel content interval outputFile tests (List.replicate n r)).2 =
      ROutcome.outOfResponses := by
  unfold runProcessModel
  have hrepl : List.replicate n r = List.replicate n r ++ [] := by simp
  rw [hrepl, debugLoop_replicate n content interval outputFile tests r cmd finalContent []
    hr hp htests initRunState]
  constructor
  · show initRunState.editCount + n = n
    simp [initRunState]
  · rfl

/-- Witness for `edit_loop_unbounded` at three edit responses. -/
theorem edit_loop_unbounded_witness :
    (runProcessModel content0 (2, 3) "o" (fun _ => Except.ok "t")
      (List.replicate 3 respEditB)).1.editCount = 3 ∧
    (runProcessModel content0 (2, 3) "o" (fun _ => Except.ok "t")
      (List.replicate 3 respEditB)).2 = ROutcome.outOfResponses :=
  edit_loop_unbounded 3 content0 (2, 3) "o" (fun _ => Except.ok "t") respEditB blockB
    expectedFinalB (by rfl) (by rfl) (fun _ => ⟨"t", rfl⟩)

/-- C4 counterexample: a run with four applicable edit responses performs
four edits — exceeding the three-edit ceiling the repository ever configured
(`max_edit_times = 3` in the superseded engine) — and a script of five edit
responses is consumed entirely without the loop terminating on its own,
refuting both the claimed edit bound and the claimed oracle-independent
termination. -/
theorem edit_loop_bound_counterexample :
    (runProcessModel content0 (2, 3) "o" (fun _ => Except.ok "t")
      (List.replicate 4 respEditB ++ ["report", goodJson])).1.editCount = 4 ∧
    (runProcessModel content0 (2, 3) "o" (fun _ => Except.ok "t")
      (List.replicate 4 respEditB ++ ["report", goodJson])).2 =
      ROutcome.finished "benign" ∧
    (runProcessModel content0 (2, 3) "o" (fun _ => Except.ok "t")
      (List.replicate 5 respEditB)).2 = ROutcome.outOfResponses := by
  have h4 := debugLoop_replicate 4 content0 (2, 3) "o" (fun _ => Except.ok "t") respEditB
    blockB expectedFinalB ["report", goodJson] (by rfl) (by rfl) (fun _ => ⟨"t", rfl⟩)
    initRunState
  have h5 := debugLoop_replicate 5 content0 (2, 3) "o" (fun _ => Except.ok "t") respEditB
    blockB expectedFinalB [] (by rfl) (by rfl) (fun _ => ⟨"t", rfl⟩) initRunState
  refine ⟨?_, ?_, ?_⟩
  · unfold runProcessModel
    rw [h4]
    rfl
  · unfold runProcessModel
    rw [h4]
    rfl
  · unfold runProcessModel
    have hrepl : List.replicate 5 respEditB = List.replicate 5 respEditB ++ [] := by simp
    rw [hrepl, h5]
    rfl

end PingFL
